import Mathlib

/-!
Shallow embedding of the similarity-graph pipeline of `src/main.py`
(TF-IDF vectorization, cosine similarity, threshold graph construction,
keyword subgraph filtering, ranked pair extraction).

Modelling conventions:
* Similarity scores and the threshold are rationals (`ℚ`): the graph and
  ranking stages of the script only compare scores, never assume anything
  about how they were produced, and the claims quantify over arbitrary
  similarity matrices for those stages.
* The TF-IDF / cosine stage (`similarity_matrix` below) is modelled over
  `ℝ`, following the exact formulas of sklearn's `TfidfVectorizer`
  (smoothed idf, L2 row normalization) and `cosine_similarity`.
* The Streamlit `st.stop()` calls after `st.error` / `st.warning` are
  modelled as an `Except Err` pipeline: each stop aborts the run with the
  corresponding error and nothing downstream is produced.
-/

namespace TechSimGraph

/-! ### Tokenizer and vocabulary (sklearn `TfidfVectorizer` defaults)

`TfidfVectorizer()` lowercases the input and tokenizes with the pattern
`(?u)\b\w\w+\b`: maximal runs of word characters, keeping runs of length
at least two.  Word characters are modelled as alphanumerics plus
underscore (the ASCII core of `\w`; the claims never depend on the exact
character class). -/

def isWordChar (c : Char) : Bool := c.isAlphanum || c == '_'

/-- Maximal runs of word characters of a character list; `acc` is the
current run, reversed. -/
def splitRuns : List Char → List Char → List (List Char)
  | [], acc => if acc.isEmpty then [] else [acc.reverse]
  | c :: rest, acc =>
    if isWordChar c then splitRuns rest (c :: acc)
    else if acc.isEmpty then splitRuns rest []
    else acc.reverse :: splitRuns rest []

/-- Tokens of one document: lowercase, split into word-character runs, keep
runs of length ≥ 2 (the `\w\w+` of sklearn's default token pattern). -/
def tokenize (s : String) : List String :=
  ((splitRuns (s.data.map Char.toLower) []).filter
    (fun t => 2 ≤ t.length)).map List.asString

/-- The fitted vocabulary: every token occurring in the corpus, once.
`fit_transform` raises `ValueError` ("empty vocabulary") when this is
empty — in particular whenever the corpus itself is empty; `src/main.py`
catches that at lines 34-38 and stops. -/
def vocabulary (texts : List String) : List String :=
  (texts.flatMap tokenize).dedup

/-! ### Graph builder (src/main.py lines 42-49)

Nodes are corpus indices `0 .. N-1`, each labelled with its raw text; the
edge loop ranges over `i < j` and keeps the pair iff
`similarity_matrix[i][j] >= threshold`, storing the similarity as the
edge's weight. -/

structure SGraph (N : ℕ) where
  nodes : List (Fin N)
  label : Fin N → String
  edges : List (Fin N × Fin N × ℚ)

/-- The edge list built by the double loop of lines 46-49: for each `i`,
each `j ∈ [i+1, N)` with `sim i j ≥ threshold` contributes the edge
`(i, j)` with weight `sim i j`. -/
def buildEdges (N : ℕ) (sim : Fin N → Fin N → ℚ) (threshold : ℚ) :
    List (Fin N × Fin N × ℚ) :=
  (List.finRange N).flatMap fun i =>
    (((List.finRange N).filter fun j =>
        decide (i < j) && decide (threshold ≤ sim i j)).map
      fun j => (i, j, sim i j))

/-- The graph `G` of lines 42-49: a node for every corpus index (labelled
by the raw text, line 44), and the thresholded weighted edges. -/
def buildGraph (texts : List String)
    (sim : Fin texts.length → Fin texts.length → ℚ) (threshold : ℚ) :
    SGraph texts.length :=
  { nodes := List.finRange texts.length
    label := fun i => texts.get i
    edges := buildEdges texts.length sim threshold }

/-! ### Keyword filter (src/main.py lines 59-69) -/

/-- `needle` is a leading segment of `hay`. -/
def leadsWith : List Char → List Char → Bool
  | [], _ => true
  | _ :: _, [] => false
  | a :: as, b :: bs => a == b && leadsWith as bs

/-- Contiguous substring occurrence on character lists. -/
def occursIn (needle : List Char) : List Char → Bool
  | [] => leadsWith needle []
  | c :: rest => leadsWith needle (c :: rest) || occursIn needle rest

/-- Python's `needle in hay` on strings: contiguous, case-sensitive
substring containment. -/
def strIn (needle hay : String) : Bool := occursIn needle.data hay.data

/-- `matched_nodes` (line 60): the nodes whose label contains the keyword. -/
def matched_nodes {N : ℕ} (G : SGraph N) (kw : String) : List (Fin N) :=
  G.nodes.filter fun n => strIn kw (G.label n)

/-- `b` is a neighbor of `a`: some edge of `G` joins them (in either
stored orientation) — networkx's `G.neighbors`. -/
def adjacent {N : ℕ} (G : SGraph N) (a b : Fin N) : Bool :=
  G.edges.any fun e => (e.1 == a && e.2.1 == b) || (e.1 == b && e.2.1 == a)

/-- Membership in `sub_nodes` (lines 62-65): matched, or a direct neighbor
of a matched node. -/
def keepNode {N : ℕ} (G : SGraph N) (kw : String) (n : Fin N) : Bool :=
  decide (n ∈ matched_nodes G kw) ||
    (matched_nodes G kw).any fun m => adjacent G m n

/-- The node list of `G.subgraph(sub_nodes)`: the graph's nodes that lie in
`sub_nodes`. -/
def sub_nodes {N : ℕ} (G : SGraph N) (kw : String) : List (Fin N) :=
  G.nodes.filter (keepNode G kw)

/-- Line 66, `G = G.subgraph(sub_nodes).copy()`: the induced subgraph on
`sub_nodes` — kept nodes, and the parent edges (weights included) whose two
endpoints are both kept. -/
def filterGraph {N : ℕ} (G : SGraph N) (kw : String) : SGraph N :=
  { nodes := sub_nodes G kw
    label := G.label
    edges := G.edges.filter fun e =>
      decide (e.1 ∈ sub_nodes G kw) && decide (e.2.1 ∈ sub_nodes G kw) }

/-! ### Ranked pair extractor (src/main.py lines 120-137) -/

def top_n : ℕ := 20

/-- The `pairs` list of lines 121-126: the same `i < j`,
`score >= threshold` double loop as the edge builder, collecting
`(i, j, score)`. -/
def candidatePairs (N : ℕ) (sim : Fin N → Fin N → ℚ) (threshold : ℚ) :
    List (Fin N × Fin N × ℚ) :=
  (List.finRange N).flatMap fun i =>
    (((List.finRange N).filter fun j =>
        decide (i < j) && decide (threshold ≤ sim i j)).map
      fun j => (i, j, sim i j))

/-- Descending comparison on the stored (full-precision) score, used as the
sort key of line 128; `sorted(..., reverse=True)` is stable, as is
`mergeSort`. -/
def scoreDesc {N : ℕ} (a b : Fin N × Fin N × ℚ) : Bool :=
  decide (b.2.2 ≤ a.2.2)

/-- `top_pairs` (line 128): sort the candidate pairs by descending score
and truncate to `top_n`. -/
def top_pairs (N : ℕ) (sim : Fin N → Fin N → ℚ) (threshold : ℚ) :
    List (Fin N × Fin N × ℚ) :=
  ((candidatePairs N sim threshold).mergeSort scoreDesc).take top_n

/-- Python's `round` to integers: round half to even (banker's rounding). -/
def roundHalfEven (q : ℚ) : ℤ :=
  if q - ⌊q⌋ < 1/2 then ⌊q⌋
  else if 1/2 < q - ⌊q⌋ then ⌊q⌋ + 1
  else if ⌊q⌋ % 2 = 0 then ⌊q⌋ else ⌊q⌋ + 1

/-- `round(score, 3)` of line 134: round to three decimal places. -/
def round3 (q : ℚ) : ℚ := (roundHalfEven (q * 1000) : ℚ) / 1000

/-- The rows of `top_df` (lines 130-137): the two raw texts and the score
rounded for display; the ranking itself used the unrounded scores. -/
def displayRows (texts : List String)
    (sim : Fin texts.length → Fin texts.length → ℚ) (threshold : ℚ) :
    List (String × String × ℚ) :=
  (top_pairs texts.length sim threshold).map fun p =>
    (texts.get p.1, texts.get p.2.1, round3 p.2.2)

/-! ### Pipeline with its terminal error conditions (sections 4.x, 7 of the
spec; `st.error`/`st.warning` + `st.stop` in src/main.py) -/

inductive Err where
  | vectorization
  | emptyCorpus
  | noEdges
  | noMatch
  deriving DecidableEq

/-- Lines 51-56: after construction, a graph with zero nodes stops the run
(`EmptyCorpusError`), else a graph with zero edges stops the run
(`NoEdgesError`); otherwise the built graph goes downstream. -/
def graphStage (texts : List String)
    (sim : Fin texts.length → Fin texts.length → ℚ) (threshold : ℚ) :
    Except Err (SGraph texts.length) :=
  let G := buildGraph texts sim threshold
  if G.nodes.length = 0 then .error .emptyCorpus
  else if G.edges.length = 0 then .error .noEdges
  else .ok G

/-- Lines 59-69: an empty keyword is a passthrough; a keyword matching no
node stops the run (`NoMatchError`); otherwise the induced subgraph on the
matched nodes and their neighbors replaces the graph. -/
def filterStage {N : ℕ} (G : SGraph N) (kw : String) : Except Err (SGraph N) :=
  if kw = "" then .ok G
  else if matched_nodes G kw = [] then .error .noMatch
  else .ok (filterGraph G kw)

/-- The whole run of src/main.py on one parameter choice: vectorization
(which fails on an empty vocabulary, lines 33-38), graph construction with
its two checks, the keyword filter, and finally the displayed graph
together with the ranked table (computed from the unfiltered candidate
set, lines 120-137). -/
def pipeline (texts : List String)
    (sim : Fin texts.length → Fin texts.length → ℚ) (threshold : ℚ)
    (kw : String) :
    Except Err (SGraph texts.length × List (String × String × ℚ)) :=
  if vocabulary texts = [] then .error .vectorization
  else
    match graphStage texts sim threshold with
    | .error e => .error e
    | .ok G =>
      match filterStage G kw with
      | .error e => .error e
      | .ok G' => .ok (G', displayRows texts sim threshold)

/-! ### Concrete corpus used by the witnesses and by claim C10

Three two-letter texts; the similarity matrix joins rows 0 and 1 and
leaves row 2 isolated; the threshold is 1 and the keyword "cc" matches
only the isolated node 2. -/

def exTexts : List String := ["aa", "bb", "cc"]

def exSim : Fin 3 → Fin 3 → ℚ := fun i j =>
  if (i = 0 ∧ j = 1) ∨ (i = 1 ∧ j = 0) then 1 else 0

def exGraph : SGraph 3 := buildGraph exTexts exSim 1

/-! ### TF-IDF and cosine similarity over ℝ (src/main.py lines 33-40)

`TfidfVectorizer` with its defaults: raw term counts weighted by the
smoothed idf `ln((1+N)/(1+df)) + 1`, rows L2-normalized;
`cosine_similarity` L2-normalizes its input rows (a zero row stays zero)
and takes pairwise dot products. -/

/-- Term frequency: occurrences of token `t` in document `i`. -/
def tf (texts : List String) (i : Fin texts.length) (t : String) : ℕ :=
  (tokenize (texts.get i)).count t

/-- Document frequency: how many documents contain token `t`. -/
def df (texts : List String) (t : String) : ℕ :=
  (texts.filter fun d => decide (t ∈ tokenize d)).length

/-- Smoothed inverse document frequency of sklearn's default
(`smooth_idf=True`): `ln((1+N)/(1+df)) + 1`. -/
noncomputable def idf (texts : List String) (t : String) : ℝ :=
  Real.log ((1 + texts.length) / (1 + df texts t)) + 1

/-- Euclidean norm of a row vector. -/
noncomputable def l2norm {V : ℕ} (v : Fin V → ℝ) : ℝ :=
  Real.sqrt (∑ t, v t ^ 2)

/-- L2 row normalization as sklearn's `normalize` performs it: a row of
norm zero is returned unchanged, any other row is divided by its norm. -/
noncomputable def normalizeRow {V : ℕ} (v : Fin V → ℝ) : Fin V → ℝ :=
  fun t => if l2norm v = 0 then v t else v t / l2norm v

/-- Unnormalized TF-IDF entry for document `i` and vocabulary slot `v`. -/
noncomputable def tfidf_raw (texts : List String) (i : Fin texts.length)
    (v : Fin (vocabulary texts).length) : ℝ :=
  (tf texts i ((vocabulary texts).get v) : ℝ) *
    idf texts ((vocabulary texts).get v)

/-- Row `i` of the `tfidf_matrix` of line 35: TF-IDF weights, L2-normalized
(the vectorizer's default `norm='l2'`). -/
noncomputable def tfidf_matrix (texts : List String) (i : Fin texts.length) :
    Fin (vocabulary texts).length → ℝ :=
  normalizeRow (tfidf_raw texts i)

/-- `sklearn.metrics.pairwise.cosine_similarity`: normalize every row of
the input matrix, then take pairwise dot products. -/
noncomputable def cosine_similarity {N V : ℕ} (A : Fin N → Fin V → ℝ)
    (i j : Fin N) : ℝ :=
  ∑ t, normalizeRow (A i) t * normalizeRow (A j) t

/-- The `similarity_matrix` of line 40. -/
noncomputable def similarity_matrix (texts : List String)
    (i j : Fin texts.length) : ℝ :=
  cosine_similarity (tfidf_matrix texts) i j

/-! ## Theorems -/

/-- Characterization of the edge list built by the loop of lines 46-49. -/
theorem mem_buildEdges {N : ℕ} {sim : Fin N → Fin N → ℚ} {θ : ℚ}
    {i j : Fin N} {w : ℚ} :
    (i, j, w) ∈ buildEdges N sim θ ↔ i < j ∧ θ ≤ sim i j ∧ w = sim i j := by
  unfold buildEdges
  simp only [List.mem_flatMap, List.mem_map, List.mem_filter, List.mem_finRange,
    true_and, Bool.and_eq_true, decide_eq_true_eq, Prod.mk.injEq]
  constructor
  · rintro ⟨a, b, ⟨hab, hth⟩, rfl, rfl, hw⟩
    exact ⟨hab, hth, hw.symm⟩
  · rintro ⟨hij, hth, hw⟩
    exact ⟨i, j, ⟨hij, hth⟩, rfl, rfl, hw.symm⟩

/-- C1: the built graph has exactly the nodes `0 .. N-1` (labelled with the
raw texts, connectivity notwithstanding), and the edge `(i, j)` with
`i < j` is present iff `sim i j ≥ threshold`, carrying weight `sim i j`;
there are no self-loops. -/
theorem C1_graph_construction (texts : List String)
    (sim : Fin texts.length → Fin texts.length → ℚ) (θ : ℚ) :
    (buildGraph texts sim θ).nodes = List.finRange texts.length ∧
    (∀ i, (buildGraph texts sim θ).label i = texts.get i) ∧
    (∀ i j w, (i, j, w) ∈ (buildGraph texts sim θ).edges ↔
      (i < j ∧ θ ≤ sim i j ∧ w = sim i j)) ∧
    (∀ i w, (i, i, w) ∉ (buildGraph texts sim θ).edges) := by
  refine ⟨rfl, fun i => rfl, fun i j w => mem_buildEdges, fun i w h => ?_⟩
  exact absurd (mem_buildEdges.mp h).1 (lt_irrefl i)

/-- C2: raising the threshold only removes edges — for `θ₁ < θ₂` every
edge built at `θ₂` is also built at `θ₁`. -/
theorem C2_threshold_monotone {N : ℕ} (sim : Fin N → Fin N → ℚ)
    {θ₁ θ₂ : ℚ} (h : θ₁ < θ₂) :
    ∀ e ∈ buildEdges N sim θ₂, e ∈ buildEdges N sim θ₁ := by
  rintro ⟨i, j, w⟩ he
  rw [mem_buildEdges] at he ⊢
  exact ⟨he.1, le_trans h.le he.2.1, he.2.2⟩

/-- Witness for C2 at a concrete matrix and thresholds 0 < 1. -/
theorem C2_threshold_monotone_witness :
    ((0 : Fin 2), (1 : Fin 2), (1 : ℚ)) ∈ buildEdges 2 (fun _ _ => 1) 0 :=
  C2_threshold_monotone (fun _ _ => 1) (by norm_num : (0 : ℚ) < 1) _
    (by decide)

/-- C8: after construction, zero nodes stop the run with the empty-corpus
error, a nonempty node set with zero edges stops it with the no-edges
error; the two errors are distinct, and an erroring stage never also
produces a graph. -/
theorem C8_graph_error_conditions (texts : List String)
    (sim : Fin texts.length → Fin texts.length → ℚ) (θ : ℚ) :
    (texts.length = 0 → graphStage texts sim θ = .error .emptyCorpus) ∧
    (texts.length ≠ 0 → (buildGraph texts sim θ).edges = [] →
      graphStage texts sim θ = .error .noEdges) ∧
    Err.emptyCorpus ≠ Err.noEdges ∧
    (∀ e, graphStage texts sim θ = .error e →
      ∀ G, ¬ graphStage texts sim θ = .ok G) := by
  refine ⟨?_, ?_, by decide, ?_⟩
  · intro h
    simp [graphStage, buildGraph, List.length_finRange, h]
  · intro hN he
    simp only [buildGraph] at he
    simp [graphStage, buildGraph, List.length_finRange, hN, he]
  · intro e he G hG
    rw [he] at hG
    exact Except.noConfusion hG

/-- Witness for C8: an empty corpus yields the empty-corpus error, a
two-text corpus whose similarities all miss the threshold yields the
no-edges error. -/
theorem C8_graph_error_conditions_witness :
    graphStage [] (fun _ _ => 0) 0 = .error .emptyCorpus ∧
    graphStage ["aa", "bb"] (fun _ _ => 0) 1 = .error .noEdges :=
  ⟨(C8_graph_error_conditions [] (fun _ _ => 0) 0).1 rfl,
   (C8_graph_error_conditions ["aa", "bb"] (fun _ _ => 0) 1).2.1
     (by decide) (by decide)⟩

/-- C9 as the code actually behaves: on a corpus with zero rows the
vectorizer's vocabulary is empty, `fit_transform` raises, and the run
stops at lines 36-38 with the vectorization error — graph construction is
never reached, whatever threshold or keyword. -/
theorem C9_empty_corpus_fails_at_vectorizer
    (sim : Fin (List.length ([] : List String)) →
      Fin (List.length ([] : List String)) → ℚ) (θ : ℚ) (kw : String) :
    pipeline [] sim θ kw = .error .vectorization := rfl

/-- Counterexample to C9 as stated: on the empty corpus the pipeline
signals the vectorization error, not the graph builder's distinct
empty-corpus error. -/
theorem C9_counterexample :
    pipeline [] (fun _ _ => 0) 0 "" = .error .vectorization ∧
    Err.vectorization ≠ Err.emptyCorpus :=
  ⟨rfl, by decide⟩

/-- C10: the zero-edge check runs only on the unfiltered graph. On the
concrete corpus `exTexts`, the full graph has one edge and passes both
checks, yet the keyword "cc" matches only the isolated node 2 (adjacent to
nothing), so the displayed graph is the single-node, zero-edge filtered
graph and no error is signalled. -/
theorem C10_filtered_graph_may_have_no_edges :
    exGraph.edges.length = 1 ∧
    matched_nodes exGraph "cc" = [2] ∧
    (∀ n, adjacent exGraph 2 n = false) ∧
    pipeline exTexts exSim 1 "cc"
      = .ok (filterGraph exGraph "cc", displayRows exTexts exSim 1) ∧
    (filterGraph exGraph "cc").nodes = [2] ∧
    (filterGraph exGraph "cc").edges = [] :=
  ⟨by decide, by decide, by decide, rfl, by decide, by decide⟩

/-! ### Keyword filter lemmas -/

theorem mem_matched_nodes {N : ℕ} {G : SGraph N} {kw : String} {n : Fin N} :
    n ∈ matched_nodes G kw ↔ n ∈ G.nodes ∧ strIn kw (G.label n) = true := by
  simp [matched_nodes, List.mem_filter]

theorem mem_sub_nodes {N : ℕ} {G : SGraph N} {kw : String} {n : Fin N} :
    n ∈ sub_nodes G kw ↔ n ∈ G.nodes ∧ keepNode G kw n = true := by
  simp [sub_nodes, List.mem_filter]

theorem keepNode_eq_true {N : ℕ} {G : SGraph N} {kw : String} {n : Fin N} :
    keepNode G kw n = true ↔
      n ∈ matched_nodes G kw ∨
        ∃ m ∈ matched_nodes G kw, adjacent G m n = true := by
  simp [keepNode, List.any_eq_true]

theorem adjacent_eq_true {N : ℕ} {G : SGraph N} {a b : Fin N} :
    adjacent G a b = true ↔
      ∃ e ∈ G.edges, (e.1 = a ∧ e.2.1 = b) ∨ (e.1 = b ∧ e.2.1 = a) := by
  simp [adjacent, List.any_eq_true, Bool.or_eq_true, Bool.and_eq_true,
    beq_iff_eq]

theorem mem_filterGraph_edges {N : ℕ} {G : SGraph N} {kw : String}
    {e : Fin N × Fin N × ℚ} :
    e ∈ (filterGraph G kw).edges ↔
      e ∈ G.edges ∧ e.1 ∈ sub_nodes G kw ∧ e.2.1 ∈ sub_nodes G kw := by
  simp [filterGraph, List.mem_filter]

theorem matched_mem_sub_nodes {N : ℕ} {G : SGraph N} {kw : String}
    {m : Fin N} (hm : m ∈ matched_nodes G kw) : m ∈ sub_nodes G kw :=
  mem_sub_nodes.mpr ⟨(mem_matched_nodes.mp hm).1,
    keepNode_eq_true.mpr (Or.inl hm)⟩

/-- C4: for a non-empty keyword matching at least one label, the filter
stage succeeds with the induced subgraph on the closed 1-hop neighborhood
of the matched nodes: a node is kept iff it is a graph node that either
matches the keyword itself or neighbors a matched node, and an edge
(weight included, since edges carry their weight) survives iff it is a
parent edge whose two endpoints are both kept. -/
theorem C4_keyword_filter {N : ℕ} (G : SGraph N) (kw : String)
    (hkw : kw ≠ "") (hm : matched_nodes G kw ≠ []) :
    filterStage G kw = .ok (filterGraph G kw) ∧
    (∀ n, n ∈ (filterGraph G kw).nodes ↔
      n ∈ G.nodes ∧ (strIn kw (G.label n) = true ∨
        ∃ m ∈ matched_nodes G kw, adjacent G m n = true)) ∧
    (∀ e, e ∈ (filterGraph G kw).edges ↔
      e ∈ G.edges ∧ e.1 ∈ (filterGraph G kw).nodes ∧
        e.2.1 ∈ (filterGraph G kw).nodes) := by
  refine ⟨by simp [filterStage, hkw, hm], fun n => ?_, fun e => ?_⟩
  · constructor
    · intro h
      obtain ⟨hn, hk⟩ := mem_sub_nodes.mp h
      rcases keepNode_eq_true.mp hk with hmt | hadj
      · exact ⟨hn, Or.inl (mem_matched_nodes.mp hmt).2⟩
      · exact ⟨hn, Or.inr hadj⟩
    · rintro ⟨hn, hmt | hadj⟩
      · exact mem_sub_nodes.mpr ⟨hn,
          keepNode_eq_true.mpr (Or.inl (mem_matched_nodes.mpr ⟨hn, hmt⟩))⟩
      · exact mem_sub_nodes.mpr ⟨hn, keepNode_eq_true.mpr (Or.inr hadj)⟩
  · exact mem_filterGraph_edges

/-- Witness for C4: on the concrete graph, the keyword "cc" is accepted by
the filter stage and yields the induced subgraph. -/
theorem C4_keyword_filter_witness :
    filterStage exGraph "cc" = .ok (filterGraph exGraph "cc") :=
  (C4_keyword_filter exGraph "cc" (by decide) (by decide)).1

/-! ### Idempotence of the filter (claim C5) -/

theorem matched_nodes_filterGraph {N : ℕ} (G : SGraph N) (kw : String) :
    matched_nodes (filterGraph G kw) kw = matched_nodes G kw := by
  show ((G.nodes.filter (keepNode G kw)).filter fun n => strIn kw (G.label n))
      = G.nodes.filter fun n => strIn kw (G.label n)
  rw [List.filter_filter]
  apply List.filter_congr
  intro n hn
  cases h : strIn kw (G.label n)
  · simp [h]
  · simp only [h, Bool.true_and]
    exact keepNode_eq_true.mpr (Or.inl (mem_matched_nodes.mpr ⟨hn, h⟩))

theorem adjacent_filterGraph {N : ℕ} {G : SGraph N} {kw : String}
    {m n : Fin N} (hm : m ∈ matched_nodes G kw) (hn : n ∈ sub_nodes G kw)
    (h : adjacent G m n = true) : adjacent (filterGraph G kw) m n = true := by
  rw [adjacent_eq_true] at h ⊢
  obtain ⟨e, he, hend⟩ := h
  refine ⟨e, mem_filterGraph_edges.mpr ⟨he, ?_, ?_⟩, hend⟩
  · rcases hend with ⟨h1, _⟩ | ⟨h1, _⟩
    · exact h1 ▸ matched_mem_sub_nodes hm
    · exact h1 ▸ hn
  · rcases hend with ⟨_, h2⟩ | ⟨_, h2⟩
    · exact h2 ▸ hn
    · exact h2 ▸ matched_mem_sub_nodes hm

theorem keepNode_filterGraph {N : ℕ} {G : SGraph N} {kw : String}
    {n : Fin N} (hn : n ∈ sub_nodes G kw) :
    keepNode (filterGraph G kw) kw n = true := by
  rw [keepNode_eq_true, matched_nodes_filterGraph]
  rcases keepNode_eq_true.mp (mem_sub_nodes.mp hn).2 with h | ⟨m, hm, hadj⟩
  · exact Or.inl h
  · exact Or.inr ⟨m, hm, adjacent_filterGraph hm hn hadj⟩

theorem sub_nodes_filterGraph {N : ℕ} (G : SGraph N) (kw : String) :
    sub_nodes (filterGraph G kw) kw = sub_nodes G kw := by
  show (sub_nodes G kw).filter _ = sub_nodes G kw
  rw [List.filter_eq_self]
  intro n hn
  exact keepNode_filterGraph hn

/-- C5: the keyword filter is idempotent — filtering the filtered graph
again with the same keyword changes neither the node list nor the
(weighted) edge list. -/
theorem C5_filter_idempotent {N : ℕ} (G : SGraph N) (kw : String)
    (_hm : matched_nodes G kw ≠ []) :
    (filterGraph (filterGraph G kw) kw).nodes = (filterGraph G kw).nodes ∧
    (filterGraph (filterGraph G kw) kw).edges = (filterGraph G kw).edges := by
  constructor
  · exact sub_nodes_filterGraph G kw
  · show (filterGraph G kw).edges.filter _ = (filterGraph G kw).edges
    rw [List.filter_eq_self]
    intro e he
    obtain ⟨-, h1, h2⟩ := mem_filterGraph_edges.mp he
    rw [sub_nodes_filterGraph]
    simp [h1, h2]

/-- Witness for C5 on the concrete graph and keyword "cc". -/
theorem C5_filter_idempotent_witness :
    (filterGraph (filterGraph exGraph "cc") "cc").nodes
      = (filterGraph exGraph "cc").nodes ∧
    (filterGraph (filterGraph exGraph "cc") "cc").edges
      = (filterGraph exGraph "cc").edges :=
  C5_filter_idempotent exGraph "cc" (by decide)

/-! ### Ranked pair extractor (claims C6, C7) -/

theorem scoreDesc_trans {N : ℕ} (a b c : Fin N × Fin N × ℚ)
    (hab : scoreDesc a b = true) (hbc : scoreDesc b c = true) :
    scoreDesc a c = true := by
  simp only [scoreDesc, decide_eq_true_eq] at *
  exact le_trans hbc hab

theorem scoreDesc_total {N : ℕ} (a b : Fin N × Fin N × ℚ) :
    (scoreDesc a b || scoreDesc b a) = true := by
  simp only [scoreDesc, Bool.or_eq_true, decide_eq_true_eq]
  exact le_total _ _

/-- C7: every ranked pair is a qualifying pair `i < j` with
`sim i j ≥ threshold` carrying its full-precision score; the ranked list
is sorted non-increasingly by that unrounded score; its length is at most
`min top_n (number of qualifying pairs)`; and the displayed table rounds
each score to three decimals only after the ranking. -/
theorem C7_ranked_pair_table (texts : List String)
    (sim : Fin texts.length → Fin texts.length → ℚ) (θ : ℚ) :
    (∀ p ∈ top_pairs texts.length sim θ,
      p.1 < p.2.1 ∧ θ ≤ sim p.1 p.2.1 ∧ p.2.2 = sim p.1 p.2.1) ∧
    List.Pairwise (fun a b => b.2.2 ≤ a.2.2) (top_pairs texts.length sim θ) ∧
    (top_pairs texts.length sim θ).length ≤
      min top_n (candidatePairs texts.length sim θ).length ∧
    displayRows texts sim θ = (top_pairs texts.length sim θ).map
      (fun p => (texts.get p.1, texts.get p.2.1, round3 p.2.2)) := by
  refine ⟨?_, ?_, ?_, rfl⟩
  · rintro ⟨i, j, w⟩ hp
    have h1 : (i, j, w) ∈
        (candidatePairs texts.length sim θ).mergeSort scoreDesc :=
      List.Sublist.mem hp (List.take_sublist _ _)
    have h2 : (i, j, w) ∈ candidatePairs texts.length sim θ :=
      (List.mergeSort_perm _ scoreDesc).subset h1
    have h3 : (i, j, w) ∈ buildEdges texts.length sim θ := h2
    exact mem_buildEdges.mp h3
  · have hs := @List.sorted_mergeSort _ scoreDesc scoreDesc_trans
      scoreDesc_total (candidatePairs texts.length sim θ)
    have hp := hs.sublist (List.take_sublist top_n _)
    exact hp.imp fun h => by simpa [scoreDesc] using h
  · show (((candidatePairs texts.length sim θ).mergeSort
      scoreDesc).take top_n).length ≤ _
    rw [List.length_take, (List.mergeSort_perm _ scoreDesc).length_eq]

/-- C6: whenever a run of the pipeline succeeds, the ranked table it
emits is `displayRows`, computed from the corpus, similarity matrix and
threshold only — the keyword influences the displayed graph but never the
ranked pairs. -/
theorem C6_ranked_table_keyword_free (texts : List String)
    (sim : Fin texts.length → Fin texts.length → ℚ) (θ : ℚ) (kw : String)
    (G : SGraph texts.length) (rows : List (String × String × ℚ))
    (h : pipeline texts sim θ kw = .ok (G, rows)) :
    rows = displayRows texts sim θ := by
  unfold pipeline at h
  by_cases hv : vocabulary texts = []
  · rw [if_pos hv] at h
    exact Except.noConfusion h
  · rw [if_neg hv] at h
    split at h
    · exact Except.noConfusion h
    · split at h
      · exact Except.noConfusion h
      · simp only [Except.ok.injEq, Prod.mk.injEq] at h
        exact h.2.symm

/-- Witness for C6: a successful concrete run with the narrowing keyword
"cc" emits exactly the keyword-free table. -/
theorem C6_ranked_table_keyword_free_witness :
    pipeline exTexts exSim 1 "cc"
      = .ok (filterGraph exGraph "cc", displayRows exTexts exSim 1) ∧
    displayRows exTexts exSim 1 = displayRows exTexts exSim 1 :=
  ⟨rfl, C6_ranked_table_keyword_free exTexts exSim 1 "cc"
    (filterGraph exGraph "cc") (displayRows exTexts exSim 1) rfl⟩

/-! ### Similarity engine bounds (claim C3) -/

theorem sum_sq_nonneg {V : ℕ} (v : Fin V → ℝ) : 0 ≤ ∑ t, v t ^ 2 :=
  Finset.sum_nonneg fun _ _ => sq_nonneg _

theorem l2norm_nonneg {V : ℕ} (v : Fin V → ℝ) : 0 ≤ l2norm v :=
  Real.sqrt_nonneg _

theorem l2norm_normalizeRow_le_one {V : ℕ} (v : Fin V → ℝ) :
    l2norm (normalizeRow v) ≤ 1 := by
  by_cases h : l2norm v = 0
  · have hv : normalizeRow v = v := funext fun t => if_pos h
    rw [hv, h]
    exact zero_le_one
  · have hsum : ∑ t, normalizeRow v t ^ 2 = 1 := by
      have hterm : ∀ t, normalizeRow v t ^ 2 = v t ^ 2 / l2norm v ^ 2 := by
        intro t
        rw [normalizeRow, if_neg h, div_pow]
      rw [Finset.sum_congr rfl fun t _ => hterm t, ← Finset.sum_div,
        show l2norm v ^ 2 = ∑ t, v t ^ 2 from Real.sq_sqrt (sum_sq_nonneg v)]
      refine div_self fun hz => h ?_
      rw [l2norm, hz, Real.sqrt_zero]
    rw [l2norm, hsum, Real.sqrt_one]

theorem normalizeRow_nonneg {V : ℕ} {v : Fin V → ℝ} (hv : ∀ t, 0 ≤ v t)
    (t : Fin V) : 0 ≤ normalizeRow v t := by
  rw [normalizeRow]
  by_cases h : l2norm v = 0
  · rw [if_pos h]
    exact hv t
  · rw [if_neg h]
    exact div_nonneg (hv t) (l2norm_nonneg v)

theorem cosine_similarity_symm {N V : ℕ} (A : Fin N → Fin V → ℝ)
    (i j : Fin N) : cosine_similarity A i j = cosine_similarity A j i :=
  Finset.sum_congr rfl fun _ _ => mul_comm _ _

theorem cosine_similarity_nonneg {N V : ℕ} {A : Fin N → Fin V → ℝ}
    (hA : ∀ i t, 0 ≤ A i t) (i j : Fin N) : 0 ≤ cosine_similarity A i j :=
  Finset.sum_nonneg fun t _ =>
    mul_nonneg (normalizeRow_nonneg (hA i) t) (normalizeRow_nonneg (hA j) t)

theorem cosine_similarity_le_one {N V : ℕ} (A : Fin N → Fin V → ℝ)
    (i j : Fin N) : cosine_similarity A i j ≤ 1 :=
  calc cosine_similarity A i j
      ≤ l2norm (normalizeRow (A i)) * l2norm (normalizeRow (A j)) :=
        Real.sum_mul_le_sqrt_mul_sqrt Finset.univ _ _
    _ ≤ 1 := mul_le_one₀ (l2norm_normalizeRow_le_one _)
        (l2norm_nonneg _) (l2norm_normalizeRow_le_one _)

theorem idf_nonneg (texts : List String) (t : String) :
    0 ≤ idf texts t := by
  unfold idf
  have hdf : (df texts t : ℝ) ≤ texts.length := by
    exact_mod_cast List.length_filter_le _ texts
  have hpos : (0 : ℝ) < 1 + df texts t := by positivity
  have h1 : (1 : ℝ) ≤ (1 + texts.length) / (1 + df texts t) := by
    rw [le_div_iff₀ hpos]
    linarith
  have := Real.log_nonneg h1
  linarith

theorem tfidf_raw_nonneg (texts : List String) (i : Fin texts.length)
    (v : Fin (vocabulary texts).length) : 0 ≤ tfidf_raw texts i v :=
  mul_nonneg (Nat.cast_nonneg _) (idf_nonneg texts _)

/-- C3: the similarity matrix computed from the TF-IDF feature matrix is
symmetric and every entry lies in `[0, 1]`. -/
theorem C3_similarity_matrix_symm_bounded (texts : List String)
    (i j : Fin texts.length) :
    similarity_matrix texts i j = similarity_matrix texts j i ∧
    0 ≤ similarity_matrix texts i j ∧ similarity_matrix texts i j ≤ 1 :=
  ⟨cosine_similarity_symm _ i j,
   cosine_similarity_nonneg
     (fun k t => normalizeRow_nonneg (tfidf_raw_nonneg texts k) t) i j,
   cosine_similarity_le_one _ i j⟩

end TechSimGraph
